import Mathlib

set_option maxRecDepth 100000

/-!
Verification development for the fbref scraper repository.

Python strings are modelled as lists of Unicode code points (`List Nat`).
The Unicode-dependent primitives (`str.lower`, NFD decomposition, the Mn
category, `str.isalpha`, whitespace) are embedded over a representative
character table: ASCII, the accented letters E-acute (U+00C9/U+00E9, which
decomposes under NFD into `e` plus the combining acute accent U+0301), and
O-with-stroke (U+00D8/U+00F8, a letter with no canonical decomposition).
Characters outside the table behave as Python treats unlisted code points:
`lower` is the identity, NFD is the singleton decomposition, and they are
not combining marks.
-/

/-- Code points of a Lean string literal, used to write concrete inputs. -/
def pstr (s : String) : List Nat := s.data.map Char.toNat

/-- Python `str.lower` on one code point (ASCII plus the modelled letters). -/
def pyLower (c : Nat) : Nat :=
  if 65 ≤ c ∧ c ≤ 90 then c + 32
  else if c = 201 then 233
  else if c = 216 then 248
  else c

/-- Canonical (NFD) decomposition of one code point. -/
def nfdChar (c : Nat) : List Nat :=
  if c = 233 then [101, 769]
  else [c]

/-- Unicode category Mn (nonspacing combining mark) on the modelled table. -/
def isMnChar (c : Nat) : Bool := c == 769

/-- Python whitespace (the characters `str.split` splits on). -/
def isSpaceChar (c : Nat) : Bool := c == 32 || c == 9 || c == 10 || c == 13

/-- Python `str.isalpha` on the modelled table.  Alphabetic characters are
not limited to ASCII: accented letters such as o-with-stroke count. -/
def isAlphaChar (c : Nat) : Bool :=
  (97 ≤ c && c ≤ 122) || (65 ≤ c && c ≤ 90) ||
    c == 233 || c == 201 || c == 248 || c == 216

/-- Word splitter underlying Python `str.split()`: accumulates the current
word (reversed) and emits it at whitespace boundaries. -/
def wordsAux : List Nat → List Nat → List (List Nat)
  | [], cur => if cur = [] then [] else [cur.reverse]
  | c :: rest, cur =>
    if isSpaceChar c then
      (if cur = [] then [] else [cur.reverse]) ++ wordsAux rest []
    else
      wordsAux rest (c :: cur)

/-- Python `' '.join(words)`. -/
def joinWords : List (List Nat) → List Nat
  | [] => []
  | [w] => w
  | w :: ws => w ++ 32 :: joinWords ws

/-- Python `' '.join(s.split())`: collapse whitespace runs and trim ends. -/
def collapseWs (s : List Nat) : List Nat := joinWords (wordsAux s [])

/-- NFD-decompose a string and drop the combining marks (category Mn),
exactly the generator expression in `_normalize_name` / `normalize_name`. -/
def stripMarks (s : List Nat) : List Nat :=
  (s.flatMap nfdChar).filter (fun c => !(isMnChar c))

/-- `PlayerURLFinder._normalize_name` in get_player_urls_from_csv.py and the
identical `normalize_name` in filter_player_urls.py: lowercase, strip
diacritics via NFD, collapse whitespace. -/
def normalizeName (s : List Nat) : List Nat :=
  collapseWs (stripMarks (s.map pyLower))

/-- The `cleaned` string of `_get_required_combos`: the normalized name with
every non-alphabetic character removed. -/
def cleanedName (s : List Nat) : List Nat :=
  (normalizeName s).filter isAlphaChar

-- Sanity examples (character model behaves like the Python routines).
example : normalizeName (pstr "José  Mourinho") = pstr "jose mourinho" := by decide
example : normalizeName (pstr "Kylian Mbappé") = pstr "kylian mbappe" := by decide
example : cleanedName (pstr "Kylian Mbappé") = pstr "kylianmbappe" := by decide
example : normalizeName (pstr "Øyvind") = pstr "øyvind" := by decide

/-!
Coverage selection (`_get_required_combos`, `_generate_two_letter_combos`).
A shard is a two-character index key, modelled as a pair of code points.
-/

/-- A two-character index key (one page of the alphabetical player index). -/
abbrev Shard := Nat × Nat

/-- The shard a single name contributes: the first two characters of its
cleaned (normalized, alphabetic-only) form, when that form has length ≥ 2. -/
def comboOf (name : List Nat) : Option Shard :=
  match cleanedName name with
  | c1 :: c2 :: _ => some (c1, c2)
  | _ => none

/-- Python `set.add` on a list kept duplicate-free. -/
def pySetAdd (s : List Shard) (x : Shard) : List Shard :=
  if x ∈ s then s else s ++ [x]

/-- One iteration of the loop in `_get_required_combos`: length ≥ 2 adds a
shard, length 1 logs a warning, length 0 does nothing. -/
def collectStep (acc : List Shard × List (List Nat)) (name : List Nat) :
    List Shard × List (List Nat) :=
  match cleanedName name with
  | c1 :: c2 :: _ => (pySetAdd acc.1 (c1, c2), acc.2)
  | [_] => (acc.1, acc.2 ++ [name])
  | [] => acc

/-- Lexicographic order on shards, matching Python `sorted` on the
two-character strings. -/
def shardLe (a b : Shard) : Prop := a.1 < b.1 ∨ (a.1 = b.1 ∧ a.2 ≤ b.2)

instance : DecidableRel shardLe := fun a b => by unfold shardLe; infer_instance

instance : IsTotal Shard shardLe := ⟨by intro a b; unfold shardLe; omega⟩

instance : IsTrans Shard shardLe := ⟨by intro a b c; unfold shardLe; omega⟩

/-- Result of `_get_required_combos`: the sorted shard list plus the names
for which a too-short warning was logged. -/
structure ComboResult where
  combos : List Shard
  warnings : List (List Nat)
deriving DecidableEq

/-- `PlayerURLFinder._get_required_combos`: accumulate the needed shards over
all names, then return them sorted; warnings are the logged omissions. -/
def getRequiredCombos (names : List (List Nat)) : ComboResult :=
  let acc := names.foldl collectStep ([], [])
  ⟨List.insertionSort shardLe acc.1, acc.2⟩

/-- `PlayerURLFinder._generate_two_letter_combos`: all 676 keys aa..zz. -/
def generateTwoLetterCombos : List Shard :=
  (List.range 26).flatMap (fun i => (List.range 26).map (fun j => (97 + i, 97 + j)))

example : (getRequiredCombos [pstr "Kylian Mbappé"]).combos = [(107, 121)] := by decide
example : generateTwoLetterCombos.length = 676 := by decide

/-!
The index crawl (`_scrape_page`, `_extract_players_from_page`,
`scrape_player_index`).  The external fetch collaborator is a function from
shards to outcomes; `_scrape_page` collapses both the definitive 404 and the
transient exception into `none` for its caller.  Python dicts are modelled
as insertion-ordered association lists with unique keys (`dictInsert`
replaces the value at the existing position, `dictUpdate` is `dict.update`).
-/

/-- An anchor element of an index page: its `href` and its link text. -/
structure Link where
  href : List Nat
  text : List Nat
deriving DecidableEq

/-- Outcome of fetching one index page, as seen by `_scrape_page`: a page of
links, a definitive 404, or a transient failure (network error or other
exception). -/
inductive FetchResult where
  | success (links : List Link)
  | notFound
  | failure
deriving DecidableEq

/-- `PlayerURLFinder._scrape_page`: returns the parsed page on success and
`None` both on a 404 and on a caught exception. -/
def scrapePage : FetchResult → Option (List Link)
  | .success links => some links
  | .notFound => none
  | .failure => none

/-- Python `sub in s` (substring containment). -/
def containsSub (p s : List Nat) : Bool := s.tails.any (fun t => p.isPrefixOf t)

/-- Python `d[k]` lookup on an insertion-ordered association list. -/
def lookupD {α β : Type} [DecidableEq α] : List (α × β) → α → Option β
  | [], _ => none
  | (k, v) :: rest, a => if k = a then some v else lookupD rest a

/-- Python `k in d`. -/
def containsKey {α β : Type} [DecidableEq α] (d : List (α × β)) (a : α) : Bool :=
  (lookupD d a).isSome

/-- Python `d[k] = v`: replace the value in place if the key exists,
otherwise append the new pair. -/
def dictInsert {α β : Type} [DecidableEq α] : List (α × β) → α → β → List (α × β)
  | [], a, b => [(a, b)]
  | (k, v) :: rest, a, b =>
    if k = a then (k, b) :: rest else (k, v) :: dictInsert rest a b

/-- Python `d.update(new)`: insert every pair of `new` into `d` in order. -/
def dictUpdate {α β : Type} [DecidableEq α] (d new : List (α × β)) : List (α × β) :=
  new.foldl (fun acc kv => dictInsert acc kv.1 kv.2) d

/-- Base URL prefixed to every extracted href. -/
def baseUrl : List Nat := pstr "https://fbref.com"

/-- The filter in `_extract_players_from_page`: a link is kept when its href
contains `/players/` with at least four slashes, is not already a stats or
matchlog link, and its text has at least three characters. -/
def linkQualifies (l : Link) : Bool :=
  containsSub (pstr "/players/") l.href &&
  decide (4 ≤ l.href.count 47) &&
  !(containsSub (pstr "-Stats") l.href || containsSub (pstr "matchlogs") l.href) &&
  !(l.text.isEmpty || decide (l.text.length < 3))

/-- The stats URL built from a kept link's href. -/
def linkUrl (l : Link) : List Nat :=
  if l.href.headD 0 = 47 then baseUrl ++ l.href ++ pstr "-Stats"
  else baseUrl ++ 47 :: l.href ++ pstr "-Stats"

/-- One link of the extraction loop: a qualifying link is added only if its
display name is not already a key of the page dictionary. -/
def extractStep (players : List (List Nat × List Nat)) (l : Link) :
    List (List Nat × List Nat) :=
  if linkQualifies l then
    if containsKey players l.text then players
    else players ++ [(l.text, linkUrl l)]
  else players

/-- `PlayerURLFinder._extract_players_from_page`: fold the extraction loop
over the page's links, starting from an empty dictionary. -/
def extractPlayersFromPage (links : List Link) : List (List Nat × List Nat) :=
  links.foldl extractStep []

/-- The persisted crawl state: the accumulated display-name → stats-URL
dictionary and the set of processed shards. -/
structure CrawlState where
  players : List (List Nat × List Nat)
  processed : List Shard
deriving DecidableEq

/-- One iteration of the loop in `scrape_player_index`: fetch the shard,
merge any extracted players with `dict.update`, and add the shard to the
processed set (the source does this unconditionally). -/
def processShard (fetch : Shard → FetchResult) (st : CrawlState) (combo : Shard) :
    CrawlState :=
  let players :=
    match scrapePage (fetch combo) with
    | some links => dictUpdate st.players (extractPlayersFromPage links)
    | none => st.players
  ⟨players, pySetAdd st.processed combo⟩

/-- The state loaded at the start of `scrape_player_index`: the checkpoint
when one is resumed from, empty otherwise. -/
def initialState : Option CrawlState → CrawlState
  | some cp => cp
  | none => ⟨[], []⟩

/-- `PlayerURLFinder.scrape_player_index`: skip shards already processed in
the checkpoint, then run the per-shard loop over the remaining ones.
Checkpoint persistence is I/O and not part of the state transformation. -/
def scrapePlayerIndex (fetch : Shard → FetchResult) (checkpoint : Option CrawlState)
    (targetCombos : List Shard) : CrawlState :=
  let st0 := initialState checkpoint
  let remaining := targetCombos.filter (fun c => !(decide (c ∈ st0.processed)))
  remaining.foldl (processShard fetch) st0

example :
    (scrapePlayerIndex (fun _ => FetchResult.failure) none [(97, 97)]).processed
      = [(97, 97)] := by decide

/-!
The season join (`parse_transfer_season`, `get_player_stats`,
`merge_transfers_with_stats`).  A statistics row is an association list from
column names to cells; a cell is numeric or textual, mirroring the
column dtypes pandas distinguishes in `select_dtypes`.
-/

/-- One cell of a statistics row: a numeric value or a text value. -/
inductive Cell where
  | num (v : Int)
  | txt (s : List Nat)
deriving DecidableEq

/-- A statistics row: column name to cell, with pandas-unique column names. -/
abbrev Row := List (List Nat × Cell)

/-- The filename cleaning in `get_player_stats`: spaces to underscores, then
apostrophes (code point 39) removed. -/
def cleanFileName (name : List Nat) : List Nat :=
  (name.map (fun c => if c = 32 then 95 else c)).filter (fun c => c != 39)

/-- Outcome of locating and reading a player's stats file: no file matched
the glob, reading raised (caught and turned into `None`), or a table. -/
inductive ReadResult where
  | absentFile
  | readError
  | table (rows : List Row)
deriving DecidableEq

/-- The row filter `df[df['Season'] == target_season]`. -/
def seasonMatches (target : List Nat) (row : Row) : Bool :=
  lookupD row (pstr "Season") == some (Cell.txt target)

/-- Pandas column sum over the filtered rows (`select_dtypes('number').sum()`
applied to one column). -/
def sumColumn (rows : List Row) (col : List Nat) : Int :=
  (rows.filterMap (fun row =>
    match lookupD row col with
    | some (Cell.num v) => some v
    | _ => none)).sum

/-- The numeric half of the combined row
(`season_stats.select_dtypes(include='number').sum()`): every numeric column
of the first row, mapped to its sum over the matching rows. -/
def numPartOf (rows : List Row) (first : Row) : Row :=
  first.filterMap (fun cv =>
    match cv.2 with
    | Cell.num _ => some (cv.1, Cell.num (sumColumn rows cv.1))
    | Cell.txt _ => none)

/-- The non-numeric half of the combined row: every textual column of the
first row except Squad and Comp, with the first row's value. -/
def txtPartOf (first : Row) : Row :=
  first.filterMap (fun cv =>
    match cv.2 with
    | Cell.txt v =>
      if cv.1 = pstr "Squad" ∨ cv.1 = pstr "Comp" then none
      else some (cv.1, Cell.txt v)
    | Cell.num _ => none)

/-- The multi-club combination in `get_player_stats`: numeric columns are
summed, non-numeric columns other than Squad and Comp take the first row's
value, then Squad is set to "Combined" and Season to the target.  Comp is
never added back. -/
def combineRows (target : List Nat) (rows : List Row) (first : Row) : Row :=
  dictInsert
    (dictInsert (numPartOf rows first ++ txtPartOf first) (pstr "Squad")
      (Cell.txt (pstr "Combined")))
    (pstr "Season") (Cell.txt target)

/-- `get_player_stats`: locate the file, filter rows for the target season,
return `None` on zero matches, the row itself on one match, and the
combined row on several. -/
def getPlayerStats (store : List Nat → ReadResult) (name target : List Nat) :
    Option Row :=
  match store (cleanFileName name) with
  | .absentFile => none
  | .readError => none
  | .table rows =>
    match rows.filter (seasonMatches target) with
    | [] => none
    | [r] => some r
    | r :: rest => some (combineRows target (r :: rest) r)

/-- Python digit test for `int` parsing. -/
def isDigitChar (c : Nat) : Bool := 48 ≤ c && c ≤ 57

/-- Value of a digit string. -/
def digitsVal (s : List Nat) : Nat := s.foldl (fun a c => a * 10 + (c - 48)) 0

/-- Python `int(s)` restricted to unsigned decimal strings; anything else
raises, modelled as `Except.error`. -/
def pyInt (s : List Nat) : Except Unit Nat :=
  if s ≠ [] ∧ s.all isDigitChar then .ok (digitsVal s) else .error ()

/-- Splitter underlying Python `s.split(sep)` for a one-character `sep`. -/
def splitOnAux (sep : Nat) : List Nat → List Nat → List (List Nat)
  | [], cur => [cur.reverse]
  | c :: rest, cur =>
    if c = sep then cur.reverse :: splitOnAux sep rest []
    else splitOnAux sep rest (c :: cur)

/-- Python `s.split(sep)`. -/
def splitOnSep (sep : Nat) (s : List Nat) : List (List Nat) := splitOnAux sep s []

/-- Decimal rendering of a natural number, as an f-string would produce. -/
def natRepr (n : Nat) : List Nat := (Nat.toDigits 10 n).map Char.toNat

/-- `parse_transfer_season`: split on `/`, prepend "20" to the first part,
parse as an integer (raising on failure), and format the previous season as
"YYYY-YYYY". -/
def parseTransferSeason (s : List Nat) : Except Unit (List Nat) :=
  match pyInt (pstr "20" ++ (splitOnSep 47 s).headD []) with
  | .error e => .error e
  | .ok startYear => .ok (natRepr (startYear - 1) ++ 45 :: natRepr startYear)

deriving instance DecidableEq for Except

/-- Whether an `Except` computation succeeded. -/
def exceptIsOk {ε α : Type} : Except ε α → Bool
  | .ok _ => true
  | .error _ => false

/-- One transfer record: the player name and the transfer-season string. -/
structure Transfer where
  player : List Nat
  season : List Nat
deriving DecidableEq

/-- One entry of the `not_found` report produced by the merge loop. -/
structure NotFoundRec where
  player : List Nat
  transferSeason : List Nat
  lookingFor : List Nat
deriving DecidableEq

/-- The merged-row construction in `merge_transfers_with_stats`: transfer
fields, `Stats_`-prefixed standard columns (Season excluded), `Def_`-prefixed
defensive columns (Season, Squad, Comp excluded), and `Stats_Season`. -/
def buildMergedRow (t : Transfer) (std : Row) (dfn : Option Row) (prev : List Nat) :
    Row :=
  let base : Row := [(pstr "Player", Cell.txt t.player), (pstr "Season", Cell.txt t.season)]
  let withStd := std.foldl (fun acc cv =>
    if cv.1 = pstr "Season" then acc
    else dictInsert acc (pstr "Stats_" ++ cv.1) cv.2) base
  let withDef :=
    match dfn with
    | none => withStd
    | some d => d.foldl (fun acc cv =>
        if cv.1 = pstr "Season" ∨ cv.1 = pstr "Squad" ∨ cv.1 = pstr "Comp" then acc
        else dictInsert acc (pstr "Def_" ++ cv.1) cv.2) withStd
  dictInsert withDef (pstr "Stats_Season") (Cell.txt prev)

/-- One iteration of the merge loop: parse the transfer season (an exception
here propagates), look up the previous-season stats, and produce either a
merged row or a not-found record. -/
def mergeStep (storeStd storeDef : List Nat → ReadResult) (t : Transfer) :
    Except Unit (Option Row × Option NotFoundRec) :=
  match parseTransferSeason t.season with
  | .error e => .error e
  | .ok prev =>
    match getPlayerStats storeStd t.player prev with
    | some s =>
      .ok (some (buildMergedRow t s (getPlayerStats storeDef t.player prev) prev), none)
    | none => .ok (none, some ⟨t.player, t.season, prev⟩)

/-- `merge_transfers_with_stats`, reduced to its row loop: process transfers
in order, accumulating merged rows and not-found records; an uncaught
exception in any row aborts the whole loop. -/
def mergeLoop (storeStd storeDef : List Nat → ReadResult) :
    List Transfer → Except Unit (List Row × List NotFoundRec)
  | [] => .ok ([], [])
  | t :: rest =>
    match mergeStep storeStd storeDef t with
    | .error e => .error e
    | .ok (mr, nf) =>
      match mergeLoop storeStd storeDef rest with
      | .error e => .error e
      | .ok (rs, nfs) => .ok (mr.toList ++ rs, nf.toList ++ nfs)

example : parseTransferSeason (pstr "10/11") = Except.ok (pstr "2009-2010") := by decide
example : parseTransferSeason (pstr "99/00") = Except.ok (pstr "2098-2099") := by decide
example : exceptIsOk (parseTransferSeason (pstr "xx/yy")) = false := by decide

/-! Association-list lemmas shared by the crawl and the season join. -/

/-- First-some choice on options. -/
def optOr {α : Type} : Option α → Option α → Option α
  | some x, _ => some x
  | none, b => b

theorem optOr_none_right {α : Type} (a : Option α) : optOr a none = a := by
  cases a <;> rfl

/-- Keys of an association list. -/
def keysOf {α β : Type} (d : List (α × β)) : List α := d.map Prod.fst

/-- Uniqueness of keys (Python dicts and pandas column indexes). -/
def nodupKeysP {α β : Type} (d : List (α × β)) : Prop := (keysOf d).Nodup

theorem lookupD_append {α β : Type} [DecidableEq α] (d e : List (α × β)) (a : α) :
    lookupD (d ++ e) a = optOr (lookupD d a) (lookupD e a) := by
  induction d with
  | nil => simp [lookupD, optOr]
  | cons kv rest ih =>
    obtain ⟨k, v⟩ := kv
    by_cases h : k = a <;> simp [lookupD, h, ih, optOr]

theorem lookupD_dictInsert {α β : Type} [DecidableEq α] (d : List (α × β)) (a x : α) (b : β) :
    lookupD (dictInsert d a b) x = if a = x then some b else lookupD d x := by
  induction d with
  | nil =>
    by_cases hx : a = x <;> simp [dictInsert, lookupD, hx]
  | cons kv rest ih =>
    obtain ⟨k, v⟩ := kv
    by_cases hk : k = a
    · subst hk
      by_cases hx : k = x <;> simp [dictInsert, lookupD, hx]
    · by_cases hx : k = x
      · have hax : ¬a = x := fun h => hk (hx.trans h.symm)
        have hxa : ¬x = a := fun h => hax h.symm
        subst hx
        simp [dictInsert, lookupD, hax, hxa]
      · simp [dictInsert, lookupD, hk, hx, ih]

theorem lookupD_eq_none_of_not_mem_keys {α β : Type} [DecidableEq α]
    (d : List (α × β)) (a : α) (h : a ∉ keysOf d) : lookupD d a = none := by
  induction d with
  | nil => rfl
  | cons kv rest ih =>
    obtain ⟨k, v⟩ := kv
    simp [keysOf] at h
    have hk : k ≠ a := fun hh => h.1 hh.symm
    simp [lookupD, hk]
    exact ih (by simp [keysOf, h.2])

theorem containsKey_dictInsert_of {α β : Type} [DecidableEq α] (d : List (α × β))
    (a x : α) (b : β) (h : containsKey d x = true) :
    containsKey (dictInsert d a b) x = true := by
  unfold containsKey at *
  rw [lookupD_dictInsert]
  by_cases hax : a = x <;> simp [hax, h]

theorem containsKey_dictUpdate_left {α β : Type} [DecidableEq α]
    (new : List (α × β)) (d : List (α × β)) (x : α)
    (h : containsKey d x = true) : containsKey (dictUpdate d new) x = true := by
  induction new generalizing d with
  | nil => exact h
  | cons kv rest ih =>
    show containsKey (dictUpdate (dictInsert d kv.1 kv.2) rest) x = true
    exact ih _ (containsKey_dictInsert_of _ _ _ _ h)

theorem containsKey_eq_false_iff {α β : Type} [DecidableEq α] (d : List (α × β)) (a : α) :
    containsKey d a = false ↔ a ∉ keysOf d := by
  induction d with
  | nil => simp [containsKey, lookupD, keysOf]
  | cons kv rest ih =>
    obtain ⟨k, v⟩ := kv
    by_cases h : k = a
    · subst h
      simp [containsKey, lookupD, keysOf]
    · have hak : ¬a = k := fun hh => h hh.symm
      simp [containsKey, lookupD, keysOf, h, hak] at ih ⊢
      exact ih

theorem lookupD_dictUpdate {α β : Type} [DecidableEq α] (d new : List (α × β)) (x : α)
    (hnd : nodupKeysP new) :
    lookupD (dictUpdate d new) x = optOr (lookupD new x) (lookupD d x) := by
  induction new generalizing d with
  | nil => simp [dictUpdate, lookupD, optOr]
  | cons kv rest ih =>
    obtain ⟨k, v⟩ := kv
    simp only [nodupKeysP, keysOf, List.map_cons, List.nodup_cons] at hnd
    have hrest : nodupKeysP rest := hnd.2
    show lookupD (dictUpdate (dictInsert d k v) rest) x = _
    rw [ih _ hrest]
    by_cases hx : k = x
    · subst hx
      have hnone : lookupD rest k = none :=
        lookupD_eq_none_of_not_mem_keys _ _ (by simpa [keysOf] using hnd.1)
      simp [lookupD, hnone, lookupD_dictInsert, optOr]
    · simp [lookupD, hx, lookupD_dictInsert, optOr]

/-! Lemmas about the crawl loop. -/

theorem mem_pySetAdd (s : List Shard) (x y : Shard) :
    x ∈ pySetAdd s y ↔ x = y ∨ x ∈ s := by
  unfold pySetAdd
  by_cases h : y ∈ s
  · simp only [if_pos h]
    constructor
    · exact Or.inr
    · rintro (rfl | hx)
      · exact h
      · exact hx
  · simp only [if_neg h, List.mem_append, List.mem_singleton]
    tauto

theorem processShard_processed (fetch : Shard → FetchResult) (st : CrawlState) (c : Shard) :
    (processShard fetch st c).processed = pySetAdd st.processed c := rfl

theorem processShard_players (fetch : Shard → FetchResult) (st : CrawlState) (c : Shard) :
    (processShard fetch st c).players =
      match scrapePage (fetch c) with
      | some links => dictUpdate st.players (extractPlayersFromPage links)
      | none => st.players := rfl

theorem processed_mono_foldl (fetch : Shard → FetchResult) (combos : List Shard)
    (st : CrawlState) (x : Shard) (h : x ∈ st.processed) :
    x ∈ (combos.foldl (processShard fetch) st).processed := by
  induction combos generalizing st with
  | nil => exact h
  | cons c rest ih =>
    rw [List.foldl_cons]
    exact ih _ (by rw [processShard_processed]; exact (mem_pySetAdd _ _ _).mpr (Or.inr h))

theorem mem_processed_foldl (fetch : Shard → FetchResult) (combos : List Shard)
    (st : CrawlState) (x : Shard) (h : x ∈ combos) :
    x ∈ (combos.foldl (processShard fetch) st).processed := by
  induction combos generalizing st with
  | nil => cases h
  | cons c rest ih =>
    rw [List.foldl_cons]
    rcases List.mem_cons.mp h with rfl | hx
    · exact processed_mono_foldl _ _ _ _
        (by rw [processShard_processed]; exact (mem_pySetAdd _ _ _).mpr (Or.inl rfl))
    · exact ih _ hx

theorem scrapePlayerIndex_processed_of_mem (fetch : Shard → FetchResult)
    (cp : Option CrawlState) (S : List Shard) (c : Shard) (h : c ∈ S) :
    c ∈ (scrapePlayerIndex fetch cp S).processed := by
  unfold scrapePlayerIndex
  by_cases hp : c ∈ (initialState cp).processed
  · exact processed_mono_foldl _ _ _ _ hp
  · exact mem_processed_foldl _ _ _ _ (by simp [List.mem_filter, h, hp])

theorem scrapePlayerIndex_processed_of_checkpoint (fetch : Shard → FetchResult)
    (cp : CrawlState) (S : List Shard) (c : Shard) (h : c ∈ cp.processed) :
    c ∈ (scrapePlayerIndex fetch (some cp) S).processed :=
  processed_mono_foldl _ _ _ _ h

theorem processShard_players_keys (fetch : Shard → FetchResult) (st : CrawlState)
    (c : Shard) (k : List Nat) (h : containsKey st.players k = true) :
    containsKey (processShard fetch st c).players k = true := by
  rw [processShard_players]
  cases scrapePage (fetch c) with
  | none => exact h
  | some links => exact containsKey_dictUpdate_left _ _ _ h

theorem foldl_players_keys (fetch : Shard → FetchResult) (combos : List Shard)
    (st : CrawlState) (k : List Nat) (h : containsKey st.players k = true) :
    containsKey ((combos.foldl (processShard fetch) st)).players k = true := by
  induction combos generalizing st with
  | nil => exact h
  | cons c rest ih =>
    rw [List.foldl_cons]
    exact ih _ (processShard_players_keys _ _ _ _ h)

theorem foldl_processShard_congr (fetch fetch' : Shard → FetchResult)
    (combos : List Shard) (st : CrawlState)
    (h : ∀ c ∈ combos, fetch c = fetch' c) :
    combos.foldl (processShard fetch) st = combos.foldl (processShard fetch') st := by
  induction combos generalizing st with
  | nil => rfl
  | cons c rest ih =>
    have hc : processShard fetch st c = processShard fetch' st c := by
      unfold processShard
      rw [h c (List.mem_cons_self _ _)]
    rw [List.foldl_cons, List.foldl_cons, hc,
      ih _ (fun c' hc' => h c' (List.mem_cons_of_mem _ hc'))]

/-! Lemmas about page extraction. -/

/-- The URL that the first qualifying link with a given display name on a
page contributes (specification-side characterization of first-seen-wins
within one page). -/
def pageFirstUrl (links : List Link) (k : List Nat) : Option (List Nat) :=
  ((links.filter (fun l => linkQualifies l && decide (l.text = k))).head?).map linkUrl

theorem pageFirstUrl_cons (l : Link) (rest : List Link) (k : List Nat) :
    pageFirstUrl (l :: rest) k =
      if linkQualifies l = true ∧ l.text = k then some (linkUrl l)
      else pageFirstUrl rest k := by
  unfold pageFirstUrl
  rw [List.filter_cons]
  by_cases hb : (linkQualifies l && decide (l.text = k)) = true
  · rw [if_pos hb]
    have hc : linkQualifies l = true ∧ l.text = k := by simpa using hb
    simp [hc]
  · rw [if_neg hb]
    have hc : ¬(linkQualifies l = true ∧ l.text = k) := by simpa using hb
    simp [hc, pageFirstUrl]

theorem lookupD_extract_foldl (links : List Link) (d : List (List Nat × List Nat))
    (k : List Nat) :
    lookupD (links.foldl extractStep d) k = optOr (lookupD d k) (pageFirstUrl links k) := by
  induction links generalizing d with
  | nil => simp [pageFirstUrl, optOr_none_right]
  | cons l rest ih =>
    rw [List.foldl_cons, ih, pageFirstUrl_cons]
    unfold extractStep
    by_cases hq : linkQualifies l = true
    · by_cases hck : containsKey d l.text = true
      · rw [if_pos hq, if_pos hck]
        by_cases htk : l.text = k
        · subst htk
          obtain ⟨v, hv⟩ : ∃ v, lookupD d l.text = some v := by
            unfold containsKey at hck
            cases hl : lookupD d l.text
            · rw [hl] at hck; simp at hck
            · exact ⟨_, rfl⟩
          simp [hq, hv, optOr]
        · simp [htk]
      · rw [if_pos hq, if_neg hck]
        by_cases htk : l.text = k
        · subst htk
          have hnone : lookupD d l.text = none := by
            unfold containsKey at hck
            cases hl : lookupD d l.text
            · rfl
            · rw [hl] at hck; simp at hck
          rw [lookupD_append]
          simp [hq, hnone, lookupD, optOr]
        · rw [lookupD_append]
          have hkt : ¬l.text = k := htk
          simp [lookupD, hkt, optOr_none_right, htk]
    · rw [if_neg hq]
      simp [hq]

theorem lookupD_extractPlayersFromPage (links : List Link) (k : List Nat) :
    lookupD (extractPlayersFromPage links) k = pageFirstUrl links k := by
  unfold extractPlayersFromPage
  rw [lookupD_extract_foldl]
  rfl

theorem nodupKeys_extract_foldl (links : List Link) (d : List (List Nat × List Nat))
    (h : nodupKeysP d) : nodupKeysP (links.foldl extractStep d) := by
  induction links generalizing d with
  | nil => exact h
  | cons l rest ih =>
    rw [List.foldl_cons]
    apply ih
    unfold extractStep
    split_ifs with h1 h2
    · exact h
    · have hmem : l.text ∉ keysOf d := (containsKey_eq_false_iff _ _).mp (by simpa using h2)
      simp only [nodupKeysP, keysOf, List.map_append, List.map_cons, List.map_nil] at h ⊢
      rw [List.nodup_append]
      exact ⟨h, List.nodup_singleton _, by simpa [keysOf, List.disjoint_singleton] using hmem⟩
    · exact h

theorem nodupKeys_extractPlayersFromPage (links : List Link) :
    nodupKeysP (extractPlayersFromPage links) :=
  nodupKeys_extract_foldl links [] (by simp [nodupKeysP, keysOf])

/-! Completion of the merge loop when every season string parses. -/

/-- Number of per-row outcomes (merged plus not-found) of a completed merge
run, `none` when the run aborted with an exception. -/
def mergeOutcomeCount : Except Unit (List Row × List NotFoundRec) → Option Nat
  | .ok (res, nf) => some (res.length + nf.length)
  | .error _ => none

theorem mergeLoop_total (storeStd storeDef : List Nat → ReadResult)
    (transfers : List Transfer)
    (h : ∀ t ∈ transfers, exceptIsOk (parseTransferSeason t.season) = true) :
    mergeOutcomeCount (mergeLoop storeStd storeDef transfers) = some transfers.length := by
  induction transfers with
  | nil => rfl
  | cons t rest ih =>
    have hrest := ih (fun t' ht' => h t' (List.mem_cons_of_mem _ ht'))
    have hp := h t (List.mem_cons_self _ _)
    cases hps : parseTransferSeason t.season with
    | error e =>
      rw [hps] at hp
      simp [exceptIsOk] at hp
    | ok prev =>
      cases hok : mergeLoop storeStd storeDef rest with
      | error e => rw [hok] at hrest; simp [mergeOutcomeCount] at hrest
      | ok pr =>
        obtain ⟨res, nf⟩ := pr
        rw [hok] at hrest
        simp only [mergeOutcomeCount, Option.some_inj] at hrest
        cases hg : getPlayerStats storeStd t.player prev with
        | none =>
          simp [mergeLoop, mergeStep, hps, hg, hok, mergeOutcomeCount]
          omega
        | some s =>
          simp [mergeLoop, mergeStep, hps, hg, hok, mergeOutcomeCount]
          omega

/-! Claim C1. -/

/-- C1 counterexample: with a fetch collaborator that always raises a
transient failure, the single shard is still recorded in the processed set
of the resulting crawl state, so a shard can be marked processed without a
definitive fetch outcome and is never retried on resume. -/
theorem c1_counterexample :
    (scrapePlayerIndex (fun _ => FetchResult.failure) none [(97, 97)]).processed
      = [(97, 97)] ∧
    scrapePage FetchResult.failure = none := by decide

/-- C1 (amended): every attempted shard is added to the processed set
regardless of the fetch outcome (success, not-found, or transient failure);
a transient failure leaves the accumulated entries untouched, so it never
corrupts them, but the shard is not retried on resume. -/
theorem c1_amended (fetch : Shard → FetchResult) (st : CrawlState) (c : Shard) :
    c ∈ (processShard fetch st c).processed ∧
    (∀ x ∈ st.processed, x ∈ (processShard fetch st c).processed) ∧
    (fetch c = FetchResult.failure → (processShard fetch st c).players = st.players) := by
  refine ⟨?_, ?_, ?_⟩
  · rw [processShard_processed]
    exact (mem_pySetAdd _ _ _).mpr (Or.inl rfl)
  · intro x hx
    rw [processShard_processed]
    exact (mem_pySetAdd _ _ _).mpr (Or.inr hx)
  · intro hf
    rw [processShard_players, hf]
    rfl

/-- C1 witness: the amended theorem applied to the concrete always-failing
fetch on an empty state. -/
theorem c1_witness :
    (97, 97) ∈ (processShard (fun _ => FetchResult.failure) ⟨[], []⟩ (97, 97)).processed ∧
    (processShard (fun _ => FetchResult.failure) ⟨[], []⟩ (97, 97)).players = [] :=
  ⟨(c1_amended (fun _ => FetchResult.failure) ⟨[], []⟩ (97, 97)).1,
   (c1_amended (fun _ => FetchResult.failure) ⟨[], []⟩ (97, 97)).2.2 rfl⟩

/-! Claim C2. -/

/-- Checkpoint used by the C2 counterexample: one entry, one processed
shard out of two. -/
def cexCheckpoint : CrawlState := ⟨[(pstr "XYZ", pstr "url1")], [(97, 97)]⟩

/-- Shard set used by the C2 counterexample. -/
def cexShards : List Shard := [(97, 97), (97, 98)]

/-- A qualifying index-page link whose display name collides with the
checkpointed entry. -/
def cexLink : Link := ⟨pstr "/en/players/42fd9c7f/Xyz", pstr "XYZ"⟩

/-- Fetch collaborator for the C2 counterexample: the unprocessed shard
succeeds with the colliding link. -/
def cexFetch : Shard → FetchResult :=
  fun c => if c = (97, 98) then FetchResult.success [cexLink] else FetchResult.failure

/-- C2 counterexample: resuming from a checkpoint whose processed set is a
strict subset of the shard set overwrites the URL of a checkpointed entry
when a newly crawled page repeats its display name, so the resulting
mapping is not a superset of the checkpoint's mapping. -/
theorem c2_counterexample :
    (pstr "XYZ", pstr "url1") ∈ cexCheckpoint.players ∧
    (pstr "XYZ", pstr "url1")
      ∉ (scrapePlayerIndex cexFetch (some cexCheckpoint) cexShards).players := by decide

/-- C2 (amended): resuming never re-fetches a shard of the checkpoint's
processed set (the result is unchanged under any modification of the fetch
collaborator on processed shards), the resulting processed set contains all
of the shard set and all of the checkpoint's processed set, and every KEY of
the checkpoint's mapping is still present — but a key's URL may be
overwritten by a later page, so superset holds for keys, not for entries. -/
theorem c2_amended (fetch fetch' : Shard → FetchResult) (cp : CrawlState) (S : List Shard)
    (hagree : ∀ c, c ∉ cp.processed → fetch c = fetch' c) :
    (∀ c ∈ S, c ∈ (scrapePlayerIndex fetch (some cp) S).processed) ∧
    (∀ c ∈ cp.processed, c ∈ (scrapePlayerIndex fetch (some cp) S).processed) ∧
    (∀ k, containsKey cp.players k = true →
      containsKey (scrapePlayerIndex fetch (some cp) S).players k = true) ∧
    scrapePlayerIndex fetch (some cp) S = scrapePlayerIndex fetch' (some cp) S := by
  refine ⟨fun c hc => scrapePlayerIndex_processed_of_mem _ _ _ _ hc,
         fun c hc => scrapePlayerIndex_processed_of_checkpoint _ _ _ _ hc,
         fun k hk => ?_, ?_⟩
  · exact foldl_players_keys _ _ _ _ hk
  · unfold scrapePlayerIndex
    apply foldl_processShard_congr
    intro c hc
    apply hagree
    have hmem := (List.mem_filter.mp hc).2
    simpa using hmem

/-- C2 witness: the amended theorem applied to the concrete checkpoint and
fetch collaborators that differ only on the already-processed shard. -/
theorem c2_witness :
    ((97, 98) ∈ (scrapePlayerIndex cexFetch (some cexCheckpoint) cexShards).processed) ∧
    ((97, 97) ∈ (scrapePlayerIndex cexFetch (some cexCheckpoint) cexShards).processed) ∧
    containsKey (scrapePlayerIndex cexFetch (some cexCheckpoint) cexShards).players
      (pstr "XYZ") = true ∧
    scrapePlayerIndex cexFetch (some cexCheckpoint) cexShards
      = scrapePlayerIndex
          (fun c => if c = (97, 97) then FetchResult.notFound else cexFetch c)
          (some cexCheckpoint) cexShards := by
  have h := c2_amended cexFetch
    (fun c => if c = (97, 97) then FetchResult.notFound else cexFetch c)
    cexCheckpoint cexShards
    (by intro c hc; simp [cexCheckpoint] at hc; simp [hc])
  exact ⟨h.1 _ (by decide), h.2.1 _ (by decide), h.2.2.1 _ (by decide), h.2.2.2⟩

/-! Claim C3. -/

/-- First page's link for the C3 counterexample. -/
def cexLinkA : Link := ⟨pstr "/en/players/aaaa1111/Xyz", pstr "XYZ"⟩

/-- Second page's link for the C3 counterexample: same display name,
different profile URL. -/
def cexLinkB : Link := ⟨pstr "/en/players/bbbb2222/Xyz", pstr "XYZ"⟩

/-- Fetch collaborator serving the two colliding pages in order. -/
def cexFetchDup : Shard → FetchResult := fun c =>
  if c = (97, 97) then FetchResult.success [cexLinkA]
  else if c = (97, 98) then FetchResult.success [cexLinkB]
  else FetchResult.failure

/-- C3 counterexample: the same display name extracted on two different
pages of one fresh run keeps the LATER page's URL, not the first-seen one:
the first page alone maps XYZ to the aaaa1111 URL, but after the second
page the accumulated mapping holds the bbbb2222 URL. -/
theorem c3_counterexample :
    lookupD (extractPlayersFromPage [cexLinkA]) (pstr "XYZ")
      = some (pstr "https://fbref.com/en/players/aaaa1111/Xyz-Stats") ∧
    lookupD (scrapePlayerIndex cexFetchDup none [(97, 97), (97, 98)]).players (pstr "XYZ")
      = some (pstr "https://fbref.com/en/players/bbbb2222/Xyz-Stats") ∧
    pstr "https://fbref.com/en/players/bbbb2222/Xyz-Stats"
      ≠ pstr "https://fbref.com/en/players/aaaa1111/Xyz-Stats" := by decide

/-- C3 (amended): within a single page, duplicate display names keep the
first-seen URL (the extraction result looks up to the first qualifying link
with that name); but when a page's entries are merged into the accumulated
mapping, an existing key's URL is overwritten by the page's value, so
across pages the later occurrence wins. -/
theorem c3_amended (d : List (List Nat × List Nat)) (links : List Link) (k : List Nat) :
    lookupD (extractPlayersFromPage links) k = pageFirstUrl links k ∧
    (containsKey (extractPlayersFromPage links) k = true →
      lookupD (dictUpdate d (extractPlayersFromPage links)) k
        = lookupD (extractPlayersFromPage links) k) := by
  refine ⟨lookupD_extractPlayersFromPage _ _, fun hck => ?_⟩
  rw [lookupD_dictUpdate _ _ _ (nodupKeys_extractPlayersFromPage links)]
  unfold containsKey at hck
  cases hl : lookupD (extractPlayersFromPage links) k with
  | none => rw [hl] at hck; simp at hck
  | some v => rfl

/-- C3 witness: the amended theorem applied to a concrete accumulated
mapping and a concrete one-link page with a colliding display name. -/
theorem c3_witness :
    lookupD (extractPlayersFromPage [cexLinkB]) (pstr "XYZ")
      = pageFirstUrl [cexLinkB] (pstr "XYZ") ∧
    lookupD (dictUpdate [(pstr "XYZ", pstr "url1")] (extractPlayersFromPage [cexLinkB]))
        (pstr "XYZ")
      = lookupD (extractPlayersFromPage [cexLinkB]) (pstr "XYZ") :=
  ⟨(c3_amended [(pstr "XYZ", pstr "url1")] [cexLinkB] (pstr "XYZ")).1,
   (c3_amended [(pstr "XYZ", pstr "url1")] [cexLinkB] (pstr "XYZ")).2 (by decide)⟩

/-! Claim C5. -/

/-- C5 counterexample: a merge run over two transfer rows, the first with an
unparseable season string, aborts with the exception before the second,
well-formed row is processed — the per-row failure is not converted into a
skip-and-report outcome. -/
theorem c5_counterexample :
    mergeLoop (fun _ => ReadResult.readError) (fun _ => ReadResult.readError)
      [⟨pstr "A", pstr "xx/yy"⟩, ⟨pstr "B", pstr "10/11"⟩] = Except.error () ∧
    exceptIsOk (parseTransferSeason (pstr "xx/yy")) = false ∧
    exceptIsOk (parseTransferSeason (pstr "10/11")) = true := by decide

/-- C5 (amended): a failing shard fetch never aborts the crawl (every shard
of the input set ends up processed under any fetch collaborator), and a
player whose stats cannot be located or read never aborts the merge (when
every transfer row's season string parses, the loop completes with one
outcome per row); only an unparseable transfer season aborts the merge
run. -/
theorem c5_amended (storeStd storeDef : List Nat → ReadResult) (transfers : List Transfer)
    (fetch : Shard → FetchResult) (cp : Option CrawlState) (S : List Shard)
    (hparse : ∀ t ∈ transfers, exceptIsOk (parseTransferSeason t.season) = true) :
    (∀ c ∈ S, c ∈ (scrapePlayerIndex fetch cp S).processed) ∧
    mergeOutcomeCount (mergeLoop storeStd storeDef transfers) = some transfers.length :=
  ⟨fun c hc => scrapePlayerIndex_processed_of_mem _ _ _ _ hc,
   mergeLoop_total _ _ _ hparse⟩

/-- C5 witness: the amended theorem applied to an always-failing fetch, an
unreadable stats store and a single well-formed transfer row. -/
theorem c5_witness :
    ((97, 97) ∈ (scrapePlayerIndex (fun _ => FetchResult.failure) none [(97, 97)]).processed) ∧
    mergeOutcomeCount (mergeLoop (fun _ => ReadResult.readError)
      (fun _ => ReadResult.readError) [⟨pstr "B", pstr "10/11"⟩]) = some 1 := by
  have h := c5_amended (fun _ => ReadResult.readError) (fun _ => ReadResult.readError)
    [⟨pstr "B", pstr "10/11"⟩] (fun _ => FetchResult.failure) none [(97, 97)]
    (by intro t ht; simp at ht; subst ht; decide)
  exact ⟨h.1 _ (by decide), h.2⟩

/-! Lemmas about coverage selection. -/

theorem nodup_pySetAdd (s : List Shard) (x : Shard) (h : s.Nodup) :
    (pySetAdd s x).Nodup := by
  unfold pySetAdd
  split_ifs with hx
  · exact h
  · simp [List.nodup_append, h, hx]

theorem mem_collectFold_fst (names : List (List Nat)) (s0 : List Shard)
    (w0 : List (List Nat)) (x : Shard) :
    x ∈ (names.foldl collectStep (s0, w0)).1 ↔
      x ∈ s0 ∨ ∃ n ∈ names, comboOf n = some x := by
  induction names generalizing s0 w0 with
  | nil => simp
  | cons n rest ih =>
    rw [List.foldl_cons, List.exists_mem_cons_iff]
    rcases hcn : cleanedName n with _ | ⟨c1, _ | ⟨c2, tl⟩⟩
    · have hstep : collectStep (s0, w0) n = (s0, w0) := by unfold collectStep; rw [hcn]
      have hcomb : comboOf n = none := by unfold comboOf; rw [hcn]
      rw [hstep, ih, hcomb]
      constructor
      · rintro (h | h)
        · exact Or.inl h
        · exact Or.inr (Or.inr h)
      · rintro (h | hc | h)
        · exact Or.inl h
        · cases hc
        · exact Or.inr h
    · have hstep : collectStep (s0, w0) n = (s0, w0 ++ [n]) := by
        unfold collectStep; rw [hcn]
      have hcomb : comboOf n = none := by unfold comboOf; rw [hcn]
      rw [hstep, ih, hcomb]
      constructor
      · rintro (h | h)
        · exact Or.inl h
        · exact Or.inr (Or.inr h)
      · rintro (h | hc | h)
        · exact Or.inl h
        · cases hc
        · exact Or.inr h
    · have hstep : collectStep (s0, w0) n = (pySetAdd s0 (c1, c2), w0) := by
        unfold collectStep; rw [hcn]
      have hcomb : comboOf n = some (c1, c2) := by unfold comboOf; rw [hcn]
      rw [hstep, ih, hcomb, mem_pySetAdd]
      constructor
      · rintro (⟨h | h⟩ | h)
        · exact Or.inr (Or.inl (by rw [h]))
        · exact Or.inl h
        · exact Or.inr (Or.inr h)
      · rintro (h | hc | h)
        · exact Or.inl (Or.inr h)
        · exact Or.inl (Or.inl (Option.some_inj.mp hc).symm)
        · exact Or.inr h

theorem mem_collectFold_snd (names : List (List Nat)) (s0 : List Shard)
    (w0 : List (List Nat)) (w : List Nat) :
    w ∈ (names.foldl collectStep (s0, w0)).2 ↔
      w ∈ w0 ∨ (w ∈ names ∧ (cleanedName w).length = 1) := by
  induction names generalizing s0 w0 with
  | nil => simp
  | cons n rest ih =>
    rw [List.foldl_cons]
    rcases hcn : cleanedName n with _ | ⟨c1, _ | ⟨c2, tl⟩⟩
    · have hstep : collectStep (s0, w0) n = (s0, w0) := by unfold collectStep; rw [hcn]
      rw [hstep, ih]
      constructor
      · rintro (h | ⟨hm, hl⟩)
        · exact Or.inl h
        · exact Or.inr ⟨List.mem_cons_of_mem _ hm, hl⟩
      · rintro (h | ⟨hm, hl⟩)
        · exact Or.inl h
        · rcases List.mem_cons.mp hm with rfl | hm'
          · rw [hcn] at hl; cases hl
          · exact Or.inr ⟨hm', hl⟩
    · have hstep : collectStep (s0, w0) n = (s0, w0 ++ [n]) := by
        unfold collectStep; rw [hcn]
      rw [hstep, ih]
      simp only [List.mem_append, List.mem_singleton]
      constructor
      · rintro (⟨h | rfl⟩ | ⟨hm, hl⟩)
        · exact Or.inl h
        · exact Or.inr ⟨List.mem_cons_self _ _, by rw [hcn]; rfl⟩
        · exact Or.inr ⟨List.mem_cons_of_mem _ hm, hl⟩
      · rintro (h | ⟨hm, hl⟩)
        · exact Or.inl (Or.inl h)
        · rcases List.mem_cons.mp hm with rfl | hm'
          · exact Or.inl (Or.inr rfl)
          · exact Or.inr ⟨hm', hl⟩
    · have hstep : collectStep (s0, w0) n = (pySetAdd s0 (c1, c2), w0) := by
        unfold collectStep; rw [hcn]
      rw [hstep, ih]
      constructor
      · rintro (h | ⟨hm, hl⟩)
        · exact Or.inl h
        · exact Or.inr ⟨List.mem_cons_of_mem _ hm, hl⟩
      · rintro (h | ⟨hm, hl⟩)
        · exact Or.inl h
        · rcases List.mem_cons.mp hm with rfl | hm'
          · rw [hcn] at hl; simp at hl
          · exact Or.inr ⟨hm', hl⟩

theorem nodup_collectFold_fst (names : List (List Nat)) (s0 : List Shard)
    (w0 : List (List Nat)) (h : s0.Nodup) :
    (names.foldl collectStep (s0, w0)).1.Nodup := by
  induction names generalizing s0 w0 with
  | nil => exact h
  | cons n rest ih =>
    rw [List.foldl_cons]
    rcases hcn : cleanedName n with _ | ⟨c1, _ | ⟨c2, tl⟩⟩
    · have hstep : collectStep (s0, w0) n = (s0, w0) := by unfold collectStep; rw [hcn]
      rw [hstep]; exact ih _ _ h
    · have hstep : collectStep (s0, w0) n = (s0, w0 ++ [n]) := by
        unfold collectStep; rw [hcn]
      rw [hstep]; exact ih _ _ h
    · have hstep : collectStep (s0, w0) n = (pySetAdd s0 (c1, c2), w0) := by
        unfold collectStep; rw [hcn]
      rw [hstep]; exact ih _ _ (nodup_pySetAdd _ _ h)

theorem comboOf_chars (n : List Nat) (s : Shard) (h : comboOf n = some s) :
    isAlphaChar s.1 = true ∧ isAlphaChar s.2 = true := by
  unfold comboOf at h
  rcases hcn : cleanedName n with _ | ⟨c1, _ | ⟨c2, tl⟩⟩ <;> rw [hcn] at h
  · cases h
  · cases h
  · obtain rfl : (c1, c2) = s := Option.some_inj.mp h
    have h1 : c1 ∈ cleanedName n := by rw [hcn]; exact List.mem_cons_self _ _
    have h2 : c2 ∈ cleanedName n := by
      rw [hcn]; exact List.mem_cons_of_mem _ (List.mem_cons_self _ _)
    unfold cleanedName at h1 h2
    exact ⟨(List.mem_filter.mp h1).2, (List.mem_filter.mp h2).2⟩

theorem mem_generateTwoLetterCombos (s : Shard) :
    s ∈ generateTwoLetterCombos ↔ (97 ≤ s.1 ∧ s.1 ≤ 122 ∧ 97 ≤ s.2 ∧ s.2 ≤ 122) := by
  obtain ⟨a, b⟩ := s
  unfold generateTwoLetterCombos
  simp only [List.mem_flatMap, List.mem_map, List.mem_range, Prod.mk.injEq]
  constructor
  · rintro ⟨i, hi, j, hj, h1, h2⟩
    omega
  · rintro ⟨h1, h2, h3, h4⟩
    exact ⟨a - 97, by omega, ⟨b - 97, by omega, by omega, by omega⟩⟩

/-! Claim C7. -/

/-- C7 counterexample: a name whose cleaned form is empty (here "!!") is
silently dropped by `_get_required_combos` — it produces no shard and no
warning, contradicting the claim that such names are surfaced to the
caller. -/
theorem c7_counterexample :
    cleanedName (pstr "!!") = [] ∧
    getRequiredCombos [pstr "!!"] = ⟨[], []⟩ := by decide

/-- C7 (amended): a name whose cleaned form has length exactly 1 is surfaced
in the warnings, but a name whose cleaned form is empty is silently
dropped: it contributes neither a shard nor a warning. -/
theorem c7_amended (names : List (List Nat)) (n1 n0 : List Nat)
    (h1mem : n1 ∈ names) (h1len : (cleanedName n1).length = 1)
    (h0mem : n0 ∈ names) (h0len : (cleanedName n0).length = 0) :
    n1 ∈ (getRequiredCombos names).warnings ∧
    n0 ∉ (getRequiredCombos names).warnings ∧
    comboOf n0 = none := by
  refine ⟨?_, ?_, ?_⟩
  · show n1 ∈ (names.foldl collectStep ([], [])).2
    rw [mem_collectFold_snd]
    exact Or.inr ⟨h1mem, h1len⟩
  · show n0 ∉ (names.foldl collectStep ([], [])).2
    rw [mem_collectFold_snd]
    rintro (h | ⟨_, hl⟩)
    · exact (List.not_mem_nil n0) h
    · omega
  · have hnil : cleanedName n0 = [] := List.length_eq_zero.mp h0len
    unfold comboOf
    rw [hnil]

/-- C7 witness: the amended theorem applied to the concrete names "X!"
(cleaned length 1) and "!!" (cleaned length 0). -/
theorem c7_witness :
    pstr "X!" ∈ (getRequiredCombos [pstr "X!", pstr "!!"]).warnings ∧
    pstr "!!" ∉ (getRequiredCombos [pstr "X!", pstr "!!"]).warnings ∧
    comboOf (pstr "!!") = none :=
  c7_amended [pstr "X!", pstr "!!"] (pstr "X!") (pstr "!!")
    (by decide) (by decide) (by decide) (by decide)

/-! Claim C8. -/

/-- C8: `_get_required_combos` returns the deduplicated, sorted set of
exactly the first two characters of each name's cleaned (normalized,
alphabetic-only) form, for names whose cleaned form has length at least 2,
and nothing else; in particular the input "Kylian Mbappé" yields the shard
"ky" (code points (107, 121)). -/
theorem c8_required_shards (names : List (List Nat)) (s : Shard) :
    (s ∈ (getRequiredCombos names).combos ↔ ∃ n ∈ names, comboOf n = some s) ∧
    (getRequiredCombos names).combos.Nodup ∧
    List.Sorted shardLe (getRequiredCombos names).combos ∧
    (107, 121) ∈ (getRequiredCombos [pstr "Kylian Mbappé"]).combos := by
  refine ⟨?_, ?_, ?_, by decide⟩
  · show s ∈ List.insertionSort shardLe ((names.foldl collectStep ([], [])).1) ↔ _
    rw [(List.perm_insertionSort shardLe _).mem_iff, mem_collectFold_fst]
    simp
  · show (List.insertionSort shardLe ((names.foldl collectStep ([], [])).1)).Nodup
    exact (List.perm_insertionSort shardLe _).nodup_iff.mpr
      (nodup_collectFold_fst _ _ _ List.nodup_nil)
  · show List.Sorted shardLe (List.insertionSort shardLe _)
    exact List.sorted_insertionSort shardLe _

/-! Claim C9. -/

/-- C9 counterexample: the name "Øyvind" (ø is alphabetic but survives
normalization, having no canonical decomposition) produces the shard
(248, 121), which is outside the 676-key universe aa..zz that
`_generate_two_letter_combos` enumerates. -/
theorem c9_counterexample :
    (248, 121) ∈ (getRequiredCombos [pstr "Øyvind"]).combos ∧
    (248, 121) ∉ generateTwoLetterCombos ∧
    generateTwoLetterCombos.length = 676 := by decide

/-- C9 (amended): both characters of every produced shard are alphabetic
(every shard comes from the alphabetic-only cleaned form), and a shard lies
in the 676-key universe exactly when both characters are ASCII lowercase
letters — names with non-ASCII alphabetic initials produce shards outside
the universe. -/
theorem c9_amended (names : List (List Nat)) (s : Shard)
    (h : s ∈ (getRequiredCombos names).combos) :
    isAlphaChar s.1 = true ∧ isAlphaChar s.2 = true ∧
    (s ∈ generateTwoLetterCombos ↔ (97 ≤ s.1 ∧ s.1 ≤ 122 ∧ 97 ≤ s.2 ∧ s.2 ≤ 122)) := by
  have hmem : s ∈ (names.foldl collectStep ([], [])).1 :=
    (List.perm_insertionSort shardLe _).mem_iff.mp h
  rw [mem_collectFold_fst] at hmem
  rcases hmem with h0 | ⟨n, _, hcomb⟩
  · cases h0
  · obtain ⟨h1, h2⟩ := comboOf_chars n s hcomb
    exact ⟨h1, h2, mem_generateTwoLetterCombos s⟩

/-- C9 witness: the amended theorem applied to the shard produced by the
name "Øyvind". -/
theorem c9_witness :
    isAlphaChar 248 = true ∧ isAlphaChar 121 = true ∧
    ((248, 121) ∈ generateTwoLetterCombos ↔
      (97 ≤ 248 ∧ 248 ≤ 122 ∧ 97 ≤ 121 ∧ 121 ≤ 122)) :=
  c9_amended [pstr "Øyvind"] (248, 121) (by decide)

/-! Claim C10. -/

/-- C10: for a season string whose first `/`-separated token is two digits,
`parse_transfer_season` returns the string "YYYY-YYYY" with
start year 2000 + YY, i.e. the previous season of the 20YY season; the
two-digit year is always read as 20xx, so "10/11" gives "2009-2010" and
"99/00" gives "2098-2099". -/
theorem c10_previous_season (d1 d2 : Nat) (rest : List Nat)
    (h1 : 48 ≤ d1 ∧ d1 ≤ 57) (h2 : 48 ≤ d2 ∧ d2 ≤ 57) :
    parseTransferSeason (d1 :: d2 :: 47 :: rest)
      = Except.ok (natRepr (2000 + (10 * (d1 - 48) + (d2 - 48)) - 1) ++
          45 :: natRepr (2000 + (10 * (d1 - 48) + (d2 - 48)))) ∧
    parseTransferSeason (pstr "10/11") = Except.ok (pstr "2009-2010") ∧
    parseTransferSeason (pstr "99/00") = Except.ok (pstr "2098-2099") := by
  refine ⟨?_, by decide, by decide⟩
  have hd1 : ¬d1 = 47 := by omega
  have hd2 : ¬d2 = 47 := by omega
  have hsplit : splitOnSep 47 (d1 :: d2 :: 47 :: rest)
      = [d1, d2] :: splitOnAux 47 rest [] := by
    unfold splitOnSep
    simp [splitOnAux, hd1, hd2]
  have hcat : pstr "20" ++ (splitOnSep 47 (d1 :: d2 :: 47 :: rest)).headD []
      = [50, 48, d1, d2] := by
    rw [hsplit]
    rfl
  have hall : ([50, 48, d1, d2].all isDigitChar) = true := by
    simp [isDigitChar]
    omega
  have hval : digitsVal [50, 48, d1, d2] = 2000 + (10 * (d1 - 48) + (d2 - 48)) := by
    unfold digitsVal
    simp [List.foldl]
    omega
  unfold parseTransferSeason
  rw [hcat]
  unfold pyInt
  rw [if_pos ⟨by simp, hall⟩, hval]

/-- C10 witness: the general theorem applied to the digits of "10/11". -/
theorem c10_witness :
    parseTransferSeason (49 :: 48 :: 47 :: [49, 49])
      = Except.ok (natRepr (2000 + (10 * (49 - 48) + (48 - 48)) - 1) ++
          45 :: natRepr (2000 + (10 * (49 - 48) + (48 - 48)))) ∧
    parseTransferSeason (pstr "10/11") = Except.ok (pstr "2009-2010") ∧
    parseTransferSeason (pstr "99/00") = Except.ok (pstr "2098-2099") :=
  c10_previous_season 49 48 [49, 49] (by omega) (by omega)

/-! Lemmas about the combined-row construction. -/

theorem lookupD_filterMap_keyed (f : (List Nat × Cell) → Option (List Nat × Cell))
    (hf : ∀ cv r, f cv = some r → r.1 = cv.1)
    (first : Row) (hnd : nodupKeysP first) (col : List Nat) :
    lookupD (first.filterMap f) col =
      match lookupD first col with
      | none => none
      | some cell => (f (col, cell)).map Prod.snd := by
  induction first with
  | nil => rfl
  | cons cv rest ih =>
    obtain ⟨k, cell⟩ := cv
    simp only [nodupKeysP, keysOf, List.map_cons, List.nodup_cons] at hnd
    have hnd' : nodupKeysP rest := hnd.2
    rw [List.filterMap_cons]
    cases hfcv : f (k, cell) with
    | none =>
      by_cases hk : k = col
      · subst hk
        have hrest : lookupD rest k = none :=
          lookupD_eq_none_of_not_mem_keys _ _ (by simpa [keysOf] using hnd.1)
        rw [ih hnd', hrest]
        simp [lookupD, hfcv]
      · rw [ih hnd']
        simp [lookupD, hk]
    | some r =>
      obtain ⟨r1, r2⟩ := r
      have hr1 : r1 = k := hf _ _ hfcv
      subst hr1
      by_cases hk : r1 = col
      · subst hk
        simp [lookupD, hfcv]
      · simp [lookupD, hk, ih hnd']

theorem lookupD_numPartOf (rows : List Row) (first : Row) (hnd : nodupKeysP first)
    (col : List Nat) :
    lookupD (numPartOf rows first) col =
      match lookupD first col with
      | some (Cell.num _) => some (Cell.num (sumColumn rows col))
      | _ => none := by
  unfold numPartOf
  have hf : ∀ (cv : List Nat × Cell) (r : List Nat × Cell),
      (match cv.2 with
       | Cell.num _ => some (cv.1, Cell.num (sumColumn rows cv.1))
       | Cell.txt _ => none) = some r → r.1 = cv.1 := by
    intro cv r h
    cases hc : cv.2 <;> rw [hc] at h
    · obtain rfl := Option.some_inj.mp h
      rfl
    · cases h
  rw [lookupD_filterMap_keyed _ hf first hnd col]
  cases h : lookupD first col with
  | none => rfl
  | some cell => cases cell <;> rfl

theorem lookupD_txtPartOf (first : Row) (hnd : nodupKeysP first) (col : List Nat) :
    lookupD (txtPartOf first) col =
      match lookupD first col with
      | some (Cell.txt v) =>
        if col = pstr "Squad" ∨ col = pstr "Comp" then none else some (Cell.txt v)
      | _ => none := by
  unfold txtPartOf
  have hf : ∀ (cv : List Nat × Cell) (r : List Nat × Cell),
      (match cv.2 with
       | Cell.txt v =>
         if cv.1 = pstr "Squad" ∨ cv.1 = pstr "Comp" then none
         else some (cv.1, Cell.txt v)
       | Cell.num _ => none) = some r → r.1 = cv.1 := by
    intro cv r h
    cases hc : cv.2 <;> rw [hc] at h <;> dsimp only at h
    · cases h
    · by_cases hsq : cv.1 = pstr "Squad" ∨ cv.1 = pstr "Comp"
      · rw [if_pos hsq] at h
        cases h
      · rw [if_neg hsq] at h
        rw [← Option.some_inj.mp h]
  rw [lookupD_filterMap_keyed _ hf first hnd col]
  cases h : lookupD first col with
  | none => rfl
  | some cell =>
    cases cell with
    | num v => rfl
    | txt v =>
      by_cases hsq : col = pstr "Squad" ∨ col = pstr "Comp" <;> simp [hsq]

/-! Claim C4. -/

/-- C4 (amended): `get_player_stats` returns absent on zero matching rows,
the single row unmodified on one, and on several a combined row whose
numeric fields are sums over the matching rows, whose other non-identifier
fields take the first row's value, whose Squad field is the sentinel
"Combined" and whose Season is the target — but the Comp (competition)
field is dropped from the combined row entirely, not replaced by the
sentinel. -/
theorem c4_amended (store : List Nat → ReadResult) (name target : List Nat)
    (rows : List Row)
    (hstore : store (cleanFileName name) = ReadResult.table rows) :
    (rows.filter (seasonMatches target) = [] → getPlayerStats store name target = none) ∧
    (∀ r, rows.filter (seasonMatches target) = [r] →
      getPlayerStats store name target = some r) ∧
    (∀ r rest, rows.filter (seasonMatches target) = r :: rest → rest ≠ [] →
      nodupKeysP r →
      getPlayerStats store name target = some (combineRows target (r :: rest) r) ∧
      lookupD (combineRows target (r :: rest) r) (pstr "Squad")
        = some (Cell.txt (pstr "Combined")) ∧
      lookupD (combineRows target (r :: rest) r) (pstr "Season")
        = some (Cell.txt target) ∧
      ((∀ v : Int, lookupD r (pstr "Comp") ≠ some (Cell.num v)) →
        lookupD (combineRows target (r :: rest) r) (pstr "Comp") = none) ∧
      (∀ col v, lookupD r col = some (Cell.num v) →
        col ≠ pstr "Squad" → col ≠ pstr "Season" →
        lookupD (combineRows target (r :: rest) r) col
          = some (Cell.num (sumColumn (r :: rest) col))) ∧
      (∀ col v, lookupD r col = some (Cell.txt v) →
        col ≠ pstr "Squad" → col ≠ pstr "Comp" → col ≠ pstr "Season" →
        lookupD (combineRows target (r :: rest) r) col = some (Cell.txt v))) := by
  have hbase : ∀ r rest col, lookupD (combineRows target (r :: rest) r) col
      = if pstr "Season" = col then some (Cell.txt target)
        else if pstr "Squad" = col then some (Cell.txt (pstr "Combined"))
        else optOr (lookupD (numPartOf (r :: rest) r) col) (lookupD (txtPartOf r) col) := by
    intro r rest col
    unfold combineRows
    rw [lookupD_dictInsert, lookupD_dictInsert, lookupD_append]
  refine ⟨?_, ?_, ?_⟩
  · intro hf
    unfold getPlayerStats
    rw [hstore]
    dsimp only
    rw [hf]
  · intro r hf
    unfold getPlayerStats
    rw [hstore]
    dsimp only
    rw [hf]
  · intro r rest hf hrest hnd
    have hres : getPlayerStats store name target
        = some (combineRows target (r :: rest) r) := by
      unfold getPlayerStats
      rw [hstore]
      dsimp only
      rw [hf]
      cases rest with
      | nil => exact absurd rfl hrest
      | cons a b => rfl
    refine ⟨hres, ?_, ?_, ?_, ?_, ?_⟩
    · rw [hbase, if_neg (by decide), if_pos rfl]
    · rw [hbase, if_pos rfl]
    · intro hcomp
      rw [hbase, if_neg (by decide), if_neg (by decide),
        lookupD_numPartOf _ _ hnd, lookupD_txtPartOf _ hnd]
      cases hc : lookupD r (pstr "Comp") with
      | none => rfl
      | some cell =>
        cases cell with
        | num v => exact absurd hc (hcomp v)
        | txt v =>
          dsimp only
          rw [if_pos (Or.inr rfl)]
          rfl
    · intro col v hcol hsq hse
      have h1 : ¬(pstr "Season" = col) := fun h => hse h.symm
      have h2 : ¬(pstr "Squad" = col) := fun h => hsq h.symm
      rw [hbase, if_neg h1, if_neg h2, lookupD_numPartOf _ _ hnd,
        lookupD_txtPartOf _ hnd, hcol]
      rfl
    · intro col v hcol hsq hcomp hse
      have h1 : ¬(pstr "Season" = col) := fun h => hse h.symm
      have h2 : ¬(pstr "Squad" = col) := fun h => hsq h.symm
      rw [hbase, if_neg h1, if_neg h2, lookupD_numPartOf _ _ hnd,
        lookupD_txtPartOf _ hnd, hcol]
      dsimp only
      rw [if_neg (by rintro (h | h) <;> [exact hsq h; exact hcomp h])]
      rfl

/-- First stats row of the C4 counterexample: season match, club AAA,
competition L1, 5 goals. -/
def cexRow1 : Row :=
  [(pstr "Season", Cell.txt (pstr "2009-2010")),
   (pstr "Squad", Cell.txt (pstr "AAA")),
   (pstr "Comp", Cell.txt (pstr "L1")),
   (pstr "Gls", Cell.num 5)]

/-- Second stats row of the C4 counterexample: same season, club BBB,
competition L2, 7 goals. -/
def cexRow2 : Row :=
  [(pstr "Season", Cell.txt (pstr "2009-2010")),
   (pstr "Squad", Cell.txt (pstr "BBB")),
   (pstr "Comp", Cell.txt (pstr "L2")),
   (pstr "Gls", Cell.num 7)]

/-- Stats store of the C4 counterexample: player P's standard-stats file
holds the two rows above. -/
def cexStatsStore : List Nat → ReadResult := fun f =>
  if f = cleanFileName (pstr "P") then ReadResult.table [cexRow1, cexRow2]
  else ReadResult.absentFile

/-- C4 counterexample: with two rows matching player P and season
2009-2010, the combined row sums the numeric field (5 + 7 = 12) and sets
Squad to "Combined", but its Comp field is ABSENT — not replaced by the
sentinel "Combined" as the claim states. -/
theorem c4_counterexample :
    (getPlayerStats cexStatsStore (pstr "P") (pstr "2009-2010")).map
      (fun cr => (lookupD cr (pstr "Comp"), lookupD cr (pstr "Gls"),
        lookupD cr (pstr "Squad")))
      = some (none, some (Cell.num 12), some (Cell.txt (pstr "Combined"))) := by
  decide

/-- C4 witness: the amended theorem applied to the concrete two-row store. -/
theorem c4_witness :
    getPlayerStats cexStatsStore (pstr "P") (pstr "2009-2010")
      = some (combineRows (pstr "2009-2010") [cexRow1, cexRow2] cexRow1) ∧
    lookupD (combineRows (pstr "2009-2010") [cexRow1, cexRow2] cexRow1) (pstr "Squad")
      = some (Cell.txt (pstr "Combined")) ∧
    lookupD (combineRows (pstr "2009-2010") [cexRow1, cexRow2] cexRow1) (pstr "Comp")
      = none ∧
    lookupD (combineRows (pstr "2009-2010") [cexRow1, cexRow2] cexRow1) (pstr "Gls")
      = some (Cell.num (sumColumn [cexRow1, cexRow2] (pstr "Gls"))) := by
  have h := (c4_amended cexStatsStore (pstr "P") (pstr "2009-2010") [cexRow1, cexRow2]
    (by decide)).2.2 cexRow1 [cexRow2] (by decide) (by decide)
    (by unfold nodupKeysP; decide)
  refine ⟨h.1, h.2.1, h.2.2.2.1 ?_, h.2.2.2.2.1 (pstr "Gls") 5 (by decide) (by decide) (by decide)⟩
  intro v hv
  rw [show lookupD cexRow1 (pstr "Comp") = some (Cell.txt (pstr "L1")) from by decide] at hv
  exact Cell.noConfusion (Option.some_inj.mp hv)

/-! Characters fixed by every stage of normalization. -/

/-- A code point left unchanged by lowering, decomposition and mark
removal; every character of a normalized string is stable. -/
def stableChar (c : Nat) : Prop :=
  pyLower c = c ∧ nfdChar c = [c] ∧ isMnChar c = false

theorem stableChar_of (d : Nat) (h1 : ¬(65 ≤ d ∧ d ≤ 90)) (h2 : d ≠ 201)
    (h3 : d ≠ 216) (h4 : d ≠ 233) (h5 : d ≠ 769) : stableChar d := by
  refine ⟨?_, ?_, ?_⟩
  · unfold pyLower
    rw [if_neg h1, if_neg h2, if_neg h3]
  · unfold nfdChar
    rw [if_neg h4]
  · unfold isMnChar
    simp [h5]

theorem filter_flatMap_comm (s : List Nat) :
    (s.flatMap nfdChar).filter (fun c => !(isMnChar c))
      = s.flatMap (fun c => (nfdChar c).filter (fun x => !(isMnChar x))) := by
  induction s with
  | nil => rfl
  | cons c rest ih => simp [List.flatMap_cons, List.filter_append, ih]

theorem stableChar_of_mem_norm (c d : Nat)
    (hd : d ∈ (nfdChar (pyLower c)).filter (fun x => !(isMnChar x))) : stableChar d := by
  rw [List.mem_filter] at hd
  obtain ⟨hmem, hmn⟩ := hd
  have h769 : d ≠ 769 := by
    intro h
    subst h
    simp [isMnChar] at hmn
  by_cases hA : 65 ≤ c ∧ c ≤ 90
  · have hl : pyLower c = c + 32 := by unfold pyLower; rw [if_pos hA]
    rw [hl] at hmem
    have hn : nfdChar (c + 32) = [c + 32] := by unfold nfdChar; rw [if_neg (by omega)]
    rw [hn, List.mem_singleton] at hmem
    subst hmem
    exact stableChar_of _ (by omega) (by omega) (by omega) (by omega) (by omega)
  · by_cases h201 : c = 201
    · subst h201
      rw [show pyLower 201 = 233 from by decide,
        show nfdChar 233 = [101, 769] from by decide] at hmem
      rcases List.mem_cons.mp hmem with rfl | hmem2
      · exact ⟨by decide, by decide, by decide⟩
      · rw [List.mem_singleton] at hmem2
        exact absurd hmem2 h769
    · by_cases h216 : c = 216
      · subst h216
        rw [show pyLower 216 = 248 from by decide,
          show nfdChar 248 = [248] from by decide, List.mem_singleton] at hmem
        subst hmem
        exact ⟨by decide, by decide, by decide⟩
      · have hl : pyLower c = c := by
          unfold pyLower
          rw [if_neg hA, if_neg h201, if_neg h216]
        rw [hl] at hmem
        by_cases h233 : c = 233
        · subst h233
          rw [show nfdChar 233 = [101, 769] from by decide] at hmem
          rcases List.mem_cons.mp hmem with rfl | hmem2
          · exact ⟨by decide, by decide, by decide⟩
          · rw [List.mem_singleton] at hmem2
            exact absurd hmem2 h769
        · have hn : nfdChar c = [c] := by unfold nfdChar; rw [if_neg h233]
          rw [hn, List.mem_singleton] at hmem
          subst hmem
          exact stableChar_of _ hA h201 h216 h233 h769

theorem stableChar_of_mem_strip (s : List Nat) (d : Nat)
    (hd : d ∈ stripMarks (s.map pyLower)) : stableChar d := by
  unfold stripMarks at hd
  rw [filter_flatMap_comm, List.mem_flatMap] at hd
  obtain ⟨c, hc, hdc⟩ := hd
  rw [List.mem_map] at hc
  obtain ⟨c0, _, rfl⟩ := hc
  exact stableChar_of_mem_norm c0 d hdc

theorem map_pyLower_of_stable (s : List Nat) (h : ∀ c ∈ s, stableChar c) :
    s.map pyLower = s := by
  induction s with
  | nil => rfl
  | cons c rest ih =>
    rw [List.map_cons, (h c (List.mem_cons_self _ _)).1,
      ih (fun c' hc' => h c' (List.mem_cons_of_mem _ hc'))]

theorem stripMarks_cons (c : Nat) (rest : List Nat) :
    stripMarks (c :: rest)
      = (nfdChar c).filter (fun x => !(isMnChar x)) ++ stripMarks rest := by
  unfold stripMarks
  rw [List.flatMap_cons, List.filter_append]

theorem stripMarks_of_stable (s : List Nat) (h : ∀ c ∈ s, stableChar c) :
    stripMarks s = s := by
  induction s with
  | nil => rfl
  | cons c rest ih =>
    obtain ⟨_, hn, hm⟩ := h c (List.mem_cons_self _ _)
    rw [stripMarks_cons, hn, ih (fun c' hc' => h c' (List.mem_cons_of_mem _ hc'))]
    simp [hm]

/-! Lemmas about whitespace collapse. -/

theorem wordsAux_nil (cur : List Nat) :
    wordsAux [] cur = if cur = [] then [] else [cur.reverse] := rfl

theorem wordsAux_cons (a : Nat) (rest cur : List Nat) :
    wordsAux (a :: rest) cur =
      if isSpaceChar a = true then
        (if cur = [] then [] else [cur.reverse]) ++ wordsAux rest []
      else wordsAux rest (a :: cur) := rfl

theorem mem_joinWords (ws : List (List Nat)) (c : Nat) (h : c ∈ joinWords ws) :
    (∃ w ∈ ws, c ∈ w) ∨ c = 32 := by
  induction ws with
  | nil => cases h
  | cons w rest ih =>
    cases rest with
    | nil => exact Or.inl ⟨w, List.mem_cons_self _ _, h⟩
    | cons w2 rest2 =>
      rw [show joinWords (w :: w2 :: rest2) = w ++ 32 :: joinWords (w2 :: rest2)
        from rfl] at h
      rcases List.mem_append.mp h with hw | hrest
      · exact Or.inl ⟨w, List.mem_cons_self _ _, hw⟩
      · rcases List.mem_cons.mp hrest with rfl | h2
        · exact Or.inr rfl
        · rcases ih h2 with ⟨w', hw', hcw⟩ | h32
          · exact Or.inl ⟨w', List.mem_cons_of_mem _ hw', hcw⟩
          · exact Or.inr h32

theorem mem_wordsAux (s : List Nat) (cur : List Nat) (w : List Nat)
    (hw : w ∈ wordsAux s cur) (c : Nat) (hc : c ∈ w) : c ∈ s ∨ c ∈ cur := by
  induction s generalizing cur with
  | nil =>
    unfold wordsAux at hw
    split_ifs at hw with hcur
    · simp at hw
    · rw [List.mem_singleton] at hw
      subst hw
      exact Or.inr (List.mem_reverse.mp hc)
  | cons a rest ih =>
    unfold wordsAux at hw
    split_ifs at hw with hsp hcur
    · simp only [List.nil_append] at hw
      rcases ih _ hw with h | h
      · exact Or.inl (List.mem_cons_of_mem _ h)
      · simp at h
    · rw [List.singleton_append] at hw
      rcases List.mem_cons.mp hw with rfl | h2
      · exact Or.inr (List.mem_reverse.mp hc)
      · rcases ih _ h2 with h | h
        · exact Or.inl (List.mem_cons_of_mem _ h)
        · simp at h
    · rcases ih _ hw with h | h
      · exact Or.inl (List.mem_cons_of_mem _ h)
      · rcases List.mem_cons.mp h with rfl | h2
        · exact Or.inl (List.mem_cons_self _ _)
        · exact Or.inr h2

theorem wordsAux_words_ok (s : List Nat) (cur : List Nat)
    (hcur : ∀ c ∈ cur, isSpaceChar c = false) (w : List Nat)
    (hw : w ∈ wordsAux s cur) :
    w ≠ [] ∧ ∀ c ∈ w, isSpaceChar c = false := by
  induction s generalizing cur with
  | nil =>
    unfold wordsAux at hw
    split_ifs at hw with h
    · simp at hw
    · rw [List.mem_singleton] at hw
      subst hw
      exact ⟨by simpa using h, fun c hc => hcur c (List.mem_reverse.mp hc)⟩
  | cons a rest ih =>
    unfold wordsAux at hw
    split_ifs at hw with hsp hemp
    · simp only [List.nil_append] at hw
      exact ih _ (fun c hc => absurd hc (List.not_mem_nil c)) hw
    · rw [List.singleton_append] at hw
      rcases List.mem_cons.mp hw with rfl | h2
      · exact ⟨by simpa using hemp, fun c hc => hcur c (List.mem_reverse.mp hc)⟩
      · exact ih _ (fun c hc => absurd hc (List.not_mem_nil c)) h2
    · refine ih _ ?_ hw
      intro c hc
      rcases List.mem_cons.mp hc with rfl | h2
      · simpa using hsp
      · exact hcur c h2

theorem wordsAux_append_word (w : List Nat) (hw : ∀ c ∈ w, isSpaceChar c = false)
    (s cur : List Nat) :
    wordsAux (w ++ s) cur = wordsAux s (w.reverse ++ cur) := by
  induction w generalizing cur with
  | nil => simp
  | cons a w2 ih =>
    have ha : isSpaceChar a = false := hw a (List.mem_cons_self _ _)
    rw [List.cons_append, wordsAux_cons, if_neg (by simp [ha])]
    rw [ih (fun c hc => hw c (List.mem_cons_of_mem _ hc)) (a :: cur)]
    simp [List.reverse_cons, List.append_assoc]

theorem wordsAux_joinWords (ws : List (List Nat))
    (h : ∀ w ∈ ws, w ≠ [] ∧ ∀ c ∈ w, isSpaceChar c = false) :
    wordsAux (joinWords ws) [] = ws := by
  induction ws with
  | nil => rfl
  | cons w rest ih =>
    obtain ⟨hne, hsf⟩ := h w (List.mem_cons_self _ _)
    cases rest with
    | nil =>
      have haux := wordsAux_append_word w hsf [] []
      simp only [List.append_nil] at haux
      rw [show joinWords [w] = w from rfl, haux]
      unfold wordsAux
      rw [if_neg (by simp [hne])]
      simp
    | cons w2 rest2 =>
      rw [show joinWords (w :: w2 :: rest2) = w ++ 32 :: joinWords (w2 :: rest2)
        from rfl]
      rw [wordsAux_append_word w hsf _ [], wordsAux_cons,
        if_pos (by decide), if_neg (by simp [hne]),
        ih (fun w' hw' => h w' (List.mem_cons_of_mem _ hw'))]
      simp

theorem collapseWs_idem (u : List Nat) : collapseWs (collapseWs u) = collapseWs u := by
  unfold collapseWs
  rw [wordsAux_joinWords (wordsAux u [])
    (fun w hw => wordsAux_words_ok u [] (fun c hc => absurd hc (List.not_mem_nil c)) w hw)]

theorem stable_collapseWs (u : List Nat) (h : ∀ c ∈ u, stableChar c) :
    ∀ c ∈ collapseWs u, stableChar c := by
  intro c hc
  unfold collapseWs at hc
  rcases mem_joinWords _ _ hc with ⟨w, hw, hcw⟩ | rfl
  · rcases mem_wordsAux u [] w hw c hcw with h1 | h1
    · exact h c h1
    · simp at h1
  · exact ⟨by decide, by decide, by decide⟩

/-! Claim C6. -/

/-- C6: name normalization is idempotent — applying `_normalize_name` (and
the identical `normalize_name`) twice yields the same result as applying it
once — and it is a pure deterministic function: equal inputs give equal
outputs. -/
theorem c6_normalize_idempotent (s t : List Nat) :
    normalizeName (normalizeName s) = normalizeName s ∧
    (s = t → normalizeName s = normalizeName t) := by
  constructor
  · have hstable : ∀ c ∈ normalizeName s, stableChar c := by
      intro c hc
      exact stable_collapseWs _ (fun c' hc' => stableChar_of_mem_strip s c' hc') c hc
    show collapseWs (stripMarks ((normalizeName s).map pyLower)) = normalizeName s
    rw [map_pyLower_of_stable _ hstable, stripMarks_of_stable _ hstable]
    show collapseWs (collapseWs (stripMarks (s.map pyLower)))
      = collapseWs (stripMarks (s.map pyLower))
    exact collapseWs_idem _
  · intro h
    rw [h]

/-- C6 witness: idempotence and determinism applied to the concrete name
"José  Mourinho". -/
theorem c6_witness :
    normalizeName (normalizeName (pstr "José  Mourinho"))
      = normalizeName (pstr "José  Mourinho") ∧
    normalizeName (pstr "José  Mourinho") = normalizeName (pstr "José  Mourinho") :=
  ⟨(c6_normalize_idempotent (pstr "José  Mourinho") (pstr "José  Mourinho")).1,
   (c6_normalize_idempotent (pstr "José  Mourinho") (pstr "José  Mourinho")).2 rfl⟩
